import Mathlib

/-!
Verification development for the capacitor-mdns repository.

The definitions below are a shallow embedding of the plugin's logic:

* `normalize` / `matchesTarget` — the NameMatcher from `src/electron/mdns.ts`
  (lines 72–80); the same regex `/ \(\d+\)$/` and exact-or-prefix rule appears
  verbatim in the iOS and Android sources.
* `parseType` / `toFullType` — service-type parsing from `src/electron/mdns.ts`
  (lines 82–90).
* `startBroadcastE` / `stopBroadcastE` — the electron advertise lifecycle
  (`src/electron/mdns.ts` lines 96–139), with the transport's publish outcome
  supplied as a parameter and the transport interactions recorded as a list of
  `Action`s.
* `onFound` / `stepD` / `runD` — the electron discovery session
  (`src/electron/mdns.ts` lines 145–196) as a fold over the serialized event
  queue (bonjour find callbacks, browser errors, and the hard-timeout firing).
* `finishOut` — the iOS result shaping and dedup loop (`finishDiscovery` in the
  iOS MDNS manager).
* `stepA` / `androidDiscoverJS`, `androidStartBroadcastJS`, `androidStopJS` —
  the Android NSD wrapper and its Capacitor bridge result shaping
  (`mDNS.kt` / `mDNSPlugin.kt`).
* `webStartBroadcast` / `webStopBroadcast` / `webDiscover` — the web fallback
  (`src/web.ts`).
-/

namespace CapMdns

/-! ## NameMatcher -/

/-- One application of the JS regex replace `name.replace(/ \(\d+\)$/, '')`,
working on the reversed character list: the end-anchored pattern
"space, open paren, one or more digits, close paren" is matched from the back.
Returns the remaining (still reversed) characters when the suffix is present. -/
def stripParenSuffixRev : List Char → Option (List Char)
  | [] => none
  | c :: rest =>
      if c = ')' then
        let ds := rest.takeWhile Char.isDigit
        match rest.dropWhile Char.isDigit with
        | c1 :: c2 :: r =>
            if c1 = '(' ∧ c2 = ' ' ∧ ds ≠ [] then some r else none
        | _ => none
      else none

/-- `normalize` on character lists: strip a single trailing " (digits)" suffix,
identity otherwise (electron `normalize`, iOS/Android use the same regex). -/
def normalizeL (s : List Char) : List Char :=
  match stripParenSuffixRev s.reverse with
  | some r => r.reverse
  | none => s

/-- `normalize(name)` from `src/electron/mdns.ts` line 73. -/
def normalize (s : String) : String := ⟨normalizeL s.data⟩

/-- `matchesTarget(candidate, target)` from `src/electron/mdns.ts` lines 75–80:
a missing or empty target accepts everything; otherwise compare the normalized
strings for equality or prefix. -/
def matchesTarget (candidate : String) (target : Option String) : Bool :=
  match target with
  | none => true
  | some t =>
      if t = "" then true
      else
        let c := normalize candidate
        let tt := normalize t
        (c == tt) || (normalize t).data.isPrefixOf c.data

/-! ## Service type parsing -/

inductive Proto where
  | tcp
  | udp
deriving DecidableEq, Repr

/-- The JS `replace(/\.$/, '')`: drop one trailing dot when present. -/
def dropTrailingDot (s : List Char) : List Char :=
  match s.reverse with
  | '.' :: r => r.reverse
  | _ => s

/-- `parseType` from `src/electron/mdns.ts` lines 82–87: default
`"_http._tcp."`, strip the trailing dot, then require the shape
`_label._tcp` or `_label._udp` (label without dots); otherwise throw. -/
def parseType (typeWithDot : Option String) : Except String (String × Proto) :=
  let s := dropTrailingDot (typeWithDot.getD "_http._tcp.").data
  match s with
  | '_' :: rest =>
      let label := rest.takeWhile (fun c => c != '.')
      if label.isEmpty then Except.error "Invalid mDNS type"
      else
        match rest.dropWhile (fun c => c != '.') with
        | '.' :: '_' :: p =>
            if p = "tcp".data then Except.ok (⟨label⟩, Proto.tcp)
            else if p = "udp".data then Except.ok (⟨label⟩, Proto.udp)
            else Except.error "Invalid mDNS type"
        | _ => Except.error "Invalid mDNS type"
  | _ => Except.error "Invalid mDNS type"

/-- `toFullType` from `src/electron/mdns.ts` lines 88–90. -/
def toFullType (label : String) (p : Proto) : String :=
  "_" ++ label ++ "._" ++ (match p with | Proto.tcp => "tcp" | Proto.udp => "udp") ++ "."

/-! ## Electron advertisement lifecycle

The interactions with the bonjour transport are recorded as a list of
`Action`s, in the order the code performs them; the transport's reaction to a
publish is a parameter (`PublishBehavior`), standing for the `'up'`/`'error'`
event the returned `Service` later emits. -/

/-- A call into the bonjour transport. -/
inductive Action where
  | unpublish
  | publish (name : String) (label : String) (proto : Proto) (port : Int)
deriving DecidableEq, Repr

/-- How the transport reacts to a publish: the `'up'` event carrying the final
(possibly uniquified) name, or the `'error'` event. An empty final name models
a falsy `svc.name`, for which the code falls back to the requested name. -/
inductive PublishBehavior where
  | up (finalName : String)
  | err (msg : String)
deriving DecidableEq, Repr

/-- Resolved value of `startBroadcast` (`{ publishing, name }`). -/
structure BroadcastRes where
  publishing : Bool
  name : String
deriving DecidableEq, Repr

/-- Resolved value of electron `stopBroadcast` (`{ publishing }`). -/
structure StopResE where
  publishing : Bool
deriving DecidableEq, Repr

/-- The name fallback of line 98: the trimmed id when non-empty, else the
default identifier. -/
def requestedName (optId : Option String) : String :=
  match optId with
  | some i => if i.trim = "" then "CapacitorMDNS" else i.trim
  | none => "CapacitorMDNS"

/-- `startBroadcast` from `src/electron/mdns.ts` lines 96–130.
State is the current advertiser (`this.advertiser`), input options are the
parsed fields of `MdnsBroadcastOptions`; `opts.port` is modelled as an integer
(`Number.isInteger` is implicit), with `none` standing for a missing port
(`Number(opts.port || 0) = 0`). Returns the transport actions performed, the
new advertiser state, and the settled promise (`Except.error` = rejection). -/

def startBroadcastE (adv : Option String) (optType : Option String)
    (optId : Option String) (optPort : Option Int) (tb : PublishBehavior) :
    List Action × Option String × Except String BroadcastRes :=
  match parseType optType with
  | Except.error m => ([], adv, Except.error m)
  | Except.ok (label, proto) =>
      let name := requestedName optId
      let port : Int := optPort.getD 0
      if port ≤ 0 then ([], adv, Except.error "Missing/invalid port")
      else
        -- `await this.stopBroadcast()` — unpublish iff an advertiser is active
        let pre : List Action := if adv.isSome then [Action.unpublish] else []
        match tb with
        | PublishBehavior.up fin =>
            let finalName := if fin = "" then name else fin
            (pre ++ [Action.publish name label proto port], some finalName,
              Except.ok { publishing := true, name := finalName })
        | PublishBehavior.err m =>
            -- `onError` stops the service and rejects; `this.advertiser` was
            -- already set to the new service when the executor ran.
            (pre ++ [Action.publish name label proto port], some name,
              Except.error m)

/-- `stopBroadcast` from `src/electron/mdns.ts` lines 133–139: stop the
advertiser when present, clear it, and always resolve `{ publishing: false }`. -/
def stopBroadcastE (adv : Option String) :
    List Action × Option String × StopResE :=
  ((if adv.isSome then [Action.unpublish] else []), none, { publishing := false })

/-! ## Electron discovery session

`discover` (`src/electron/mdns.ts` lines 145–196) runs on Node's single event
loop: the bonjour find callback, the browser `'error'` handler, and the
`setTimeout(finish, timeoutMs)` callback execute serialized. We model the
session as a fold of that event sequence. `delivered` counts how many times
`resolve({ services })` has run; `finish` is guarded by the `finished` flag,
and after `finish` the browser has been stopped, so no further find callbacks
are processed. -/

/-- The bonjour `Service` fields the find callback reads. -/
structure Candidate where
  name : String
  port : Option Int
  addresses : Option (List String)
  txt : List (String × String)
deriving DecidableEq, Repr

/-- `MdnsService` from `src/electron/mdns.ts` lines 11–18. -/
structure MdnsService where
  name : String
  type : String
  domain : String
  port : Int
  hosts : List String
  txt : Option (List (String × String))
deriving DecidableEq, Repr

/-- The dedup key `` `${name}:${port}` `` (line 180). -/
def svcKey (name : String) (port : Int) : String :=
  name ++ ":" ++ toString port

/-- The record built in the find callback (lines 171–178). -/
def toItem (fullType : String) (s : Candidate) : MdnsService :=
  { name := s.name
    type := fullType
    domain := "local."
    port := s.port.getD 0
    hosts := s.addresses.getD []
    txt := if s.txt.isEmpty then none else some s.txt }

/-- Discovery session state. -/
structure DiscState where
  services : List MdnsService
  finished : Bool
  delivered : Nat
deriving DecidableEq, Repr

def initDisc : DiscState := { services := [], finished := false, delivered := 0 }

/-- `finish` (lines 156–165): idempotent; on the first call it clears the
timer, stops the browser and resolves the promise. -/
def finishD (st : DiscState) : DiscState :=
  if st.finished then st
  else { st with finished := true, delivered := st.delivered + 1 }

/-- Per-session configuration: the full type string used for result shaping
and `targetId = opts.id?.trim()` (where `some ""` is falsy in the JS tests). -/
structure DiscCfg where
  fullType : String
  targetId : Option String
deriving DecidableEq, Repr

/-- JS truthiness of `targetId` (line 183): present and non-empty. -/
def targetTruthy : Option String → Bool
  | none => false
  | some s => !(s == "")

/-- The find callback (lines 168–184): filter by target, build the record,
dedup by `name:port`, and early-exit when a truthy target matched. A session
that already finished has stopped its browser, so the callback no longer runs. -/
def onFound (cfg : DiscCfg) (st : DiscState) (s : Candidate) : DiscState :=
  if st.finished then st
  else if !(matchesTarget s.name cfg.targetId) then st
  else
    let item := toItem cfg.fullType s
    let key := svcKey item.name item.port
    let st1 :=
      if st.services.any (fun x => svcKey x.name x.port == key) then st
      else { st with services := st.services ++ [item] }
    if targetTruthy cfg.targetId && matchesTarget item.name cfg.targetId then
      finishD st1
    else st1

/-- The events the Node event loop can deliver to one discovery session. -/
inductive DEvent where
  | found (c : Candidate)
  | browseError (msg : String)
  | timeout
deriving DecidableEq, Repr

/-- One event-loop step of the session. A browser `'error'` only logs
(lines 187–190); the timer callback is `finish` (line 186). -/
def stepD (cfg : DiscCfg) (st : DiscState) : DEvent → DiscState
  | DEvent.found c => onFound cfg st c
  | DEvent.browseError _ => st
  | DEvent.timeout => finishD st

/-- Run a discovery session over its serialized event queue. -/
def runD (cfg : DiscCfg) (evs : List DEvent) : DiscState :=
  evs.foldl (stepD cfg) initDisc

/-! ## iOS result shaping and dedup (`finishDiscovery`)

The iOS MDNS manager accumulates a `ServiceBox` per discovered service and, at
finish time, keeps only resolved boxes, deduplicating by the string key
`"\(box.name):\(box.port):\(box.hosts.first ?? "")"` with a `seen` set —
first occurrence wins. -/

/-- The mutable `ServiceBox` of the iOS manager. -/
structure Box where
  name : String
  type : String
  domain : String
  port : Int
  hosts : List String
  txt : List (String × String)
  resolved : Bool
deriving DecidableEq, Repr

/-- The dedup key built in `finishDiscovery`: raw name, port, first host. -/
def boxKey (b : Box) : String :=
  b.name ++ ":" ++ toString b.port ++ ":" ++ (b.hosts.head?.getD "")

/-- One output dictionary of `finishDiscovery`: `hosts` and `txt` are present
only when non-empty. -/
structure Entry where
  name : String
  type : String
  domain : String
  port : Int
  hosts : Option (List String)
  txt : Option (List (String × String))
deriving DecidableEq, Repr

/-- The entry appended for one box. -/
def mkEntry (b : Box) : Entry :=
  { name := b.name
    type := b.type
    domain := b.domain
    port := b.port
    hosts := if b.hosts.isEmpty then none else some b.hosts
    txt := if b.txt.isEmpty then none else some b.txt }

/-- The same key read back off an output entry. -/
def entryKey (e : Entry) : String :=
  e.name ++ ":" ++ toString e.port ++ ":" ++ (((e.hosts.getD []).head?).getD "")

/-- The `for box in discovered where box.resolved` loop of `finishDiscovery`,
with the `seen` set carried as a list of keys. -/
def finishLoop : List Box → List String → List Entry
  | [], _ => []
  | b :: rest, seen =>
      if b.resolved then
        let k := boxKey b
        if seen.contains k then finishLoop rest seen
        else mkEntry b :: finishLoop rest (k :: seen)
      else finishLoop rest seen

/-- `finishDiscovery`'s output for a given `discovered` list. -/
def finishOut (discovered : List Box) : List Entry :=
  finishLoop discovered []

/-! ## iOS discovery session (`mDNS.swift`)

The other iOS manager (`src/ios/Sources/mDNSPlugin/mDNS.swift`) drives its
session through `NetServiceDelegate` callbacks on the main queue. Its
`matchesTarget(candidate:target:)` (lines 321–326) is the same normalized
exact-or-prefix rule as the electron `matchesTarget` embedded above: a nil
target accepts everything, and an empty target also accepts everything since
the empty normalized string is a prefix of every candidate — so `matchesTarget`
is reused for it. `finish` (lines 72–81) is guarded by `discoveryCompletion`
being non-nil and delivers the completion exactly once. -/

/-- The session fields of `mDNS.swift` that `netServiceDidResolveAddress`
touches: whether `discoveryCompletion` is still pending, how many times it has
been delivered, and the in-flight `resolveRemaining` counter. -/
structure IosState where
  active : Bool
  delivered : Nat
  resolveRemaining : Nat
deriving DecidableEq, Repr

/-- `finish(filterName:)` from `mDNS.swift` lines 72–81: deliver the pending
completion once; a no-op when `discoveryCompletion` is already nil. -/
def iosFinish (st : IosState) : IosState :=
  if st.active then { st with active := false, delivered := st.delivered + 1 }
  else st

/-- `netServiceDidResolveAddress` from `mDNS.swift` lines 374–387:
`resolveRemaining = max(0, resolveRemaining - 1)` (truncated subtraction),
then finish as soon as the nil-tolerant matcher accepts the sender's name and
a completion is pending; only otherwise schedule the settle window (timer
bookkeeping, no session-state change). -/
def iosDidResolve (targetId : Option String) (st : IosState)
    (senderName : String) : IosState :=
  let st1 := { st with resolveRemaining := st.resolveRemaining - 1 }
  if matchesTarget senderName targetId && st1.active then iosFinish st1
  else st1

/-! ## Android NSD wrapper and Capacitor bridge

`mDNS.kt` completes a `CompletableDeferred` exactly once — on start-discovery
failure, on an early-exit match, or at the timeout — and `mDNSPlugin.kt`
always resolves the Capacitor call, wrapping runtime failures into the
`{ error, errorMessage }` payload. -/

/-- The fields of a resolved `NsdServiceInfo` the wrapper reads. -/
structure AService where
  name : String
  type : String
  host : Option String
  port : Int
deriving DecidableEq, Repr

/-- State of one Android `discover` call: the accumulated `found` list and the
value of the `CompletableDeferred` once completed. -/
structure AState where
  found : List AService
  completed : Option (List AService)
deriving DecidableEq, Repr

/-- Events delivered to the Android discovery listener: start failure, a
resolve completion for a candidate that passed the found-filter, and the
timeout job firing. -/
inductive AEvent where
  | startFailed
  | resolvedA (s : AService)
  | timeoutFired
deriving DecidableEq, Repr

/-- `result.complete(found.toList())` guarded by `isCompleted`. -/
def completeA (st : AState) : AState :=
  match st.completed with
  | some _ => st
  | none => { st with completed := some st.found }

/-- One listener callback of `mDNS.kt` `discover`:
`onStartDiscoveryFailed` completes with whatever was found; a resolve success
appends to `found` and early-exits when a target is set and matches; the
timeout completes with the accumulated list. After completion the discovery
has been stopped, so late resolves no longer affect the (snapshotted) result. -/
def stepA (target : Option String) (st : AState) : AEvent → AState
  | AEvent.startFailed => completeA st
  | AEvent.resolvedA s =>
      if st.completed.isSome then st
      else
        let st1 := { st with found := st.found ++ [s] }
        if target.isSome && matchesTarget s.name target then completeA st1
        else st1
  | AEvent.timeoutFired => completeA st

/-- Run an Android discovery session over its callback sequence. -/
def runA (target : Option String) (evs : List AEvent) : AState :=
  evs.foldl (stepA target) { found := [], completed := none }

/-- The discover payload the Capacitor bridges resolve with. -/
structure DiscoverJS where
  error : Bool
  errorMessage : Option String
  servicesFound : Nat
  services : List AService
deriving DecidableEq, Repr

/-- `mDNSPlugin.kt` `discover` (lines 129–156): awaits the deferred and
resolves `jsResultDiscover(false, null, arr)` — the error flag is false on
every path that does not throw, including a failed browse start. -/
def androidDiscoverJS (target : Option String) (evs : List AEvent) : DiscoverJS :=
  let lst := (runA target evs).completed.getD (runA target evs).found
  { error := false, errorMessage := none
    servicesFound := lst.length, services := lst }

/-- The broadcast payload the Capacitor bridges resolve with. -/
structure BroadcastJS where
  publishing : Bool
  name : String
  error : Bool
  errorMessage : Option String
deriving DecidableEq, Repr

/-- The transport's reaction to an Android `registerService`. -/
inductive RegOutcome where
  | registered (finalName : String)
  | failed (code : Int)
deriving DecidableEq, Repr

/-- `mDNSPlugin.kt` `startBroadcast` (lines 82–107): `port <= 0` resolves the
validation error payload without calling into the wrapper; otherwise the
registration listener's outcome is wrapped into the resolved payload
(`onError` receives `IllegalStateException("Registration failed: $errorCode")`). -/
def androidStartBroadcastJS (optPort : Option Int) (ro : RegOutcome) : BroadcastJS :=
  let port := optPort.getD 0
  if port ≤ 0 then
    { publishing := false, name := "", error := true
      errorMessage := some "Missing/invalid port" }
  else
    match ro with
    | RegOutcome.registered n =>
        { publishing := true, name := n, error := false, errorMessage := none }
    | RegOutcome.failed code =>
        { publishing := false, name := "", error := true
          errorMessage := some ("Registration failed: " ++ toString code) }

/-- The stop payload the Capacitor bridges resolve with. -/
structure StopJS where
  publishing : Bool
  error : Bool
  errorMessage : Option String
deriving DecidableEq, Repr

/-- `mDNSPlugin.kt` `stopBroadcast` (lines 113–120) over `mDNS.kt`
`stopBroadcast`: unregister iff a registration is active (the wrapper's
`safeUnregister` swallows any throw), clear it, and resolve
`jsResultStop(false, null)`. -/
def androidStopJS (regActive : Bool) : List Action × Bool × StopJS :=
  ((if regActive then [Action.unpublish] else []), false,
    { publishing := false, error := false, errorMessage := none })

/-! ## Web fallback (`src/web.ts`)

Each method forwards to the Electron preload bridge when one is exposed on
`window`; otherwise it logs and resolves a well-shaped stub. The stub paths
never call into any transport and never reject. -/

/-- `MdnsBroadcastOptions` from `src/definitions.ts`. -/
structure BroadcastOpts where
  type : Option String
  id : Option String
  domain : Option String
  port : Int
  txt : Option (List (String × String))
deriving Repr

/-- `MdnsDiscoverOptions` from `src/definitions.ts`. -/
structure DiscoverOpts where
  type : Option String
  id : Option String
  timeoutMs : Option Int
  useNW : Option Bool
deriving Repr

/-- Discover result at the web layer (services in electron shape). -/
structure WebDiscoverRes where
  services : List MdnsService
  error : Bool
  errorMessage : Option String
  servicesFound : Nat
deriving DecidableEq, Repr

/-- An Electron preload bridge as `web.ts` sees it on `window`. -/
structure Bridge where
  start : BroadcastOpts → BroadcastJS
  stop : Unit → StopJS
  disc : DiscoverOpts → WebDiscoverRes

/-- `mDNSWeb.startBroadcast`: forward to the bridge when present, else resolve
the stub `{ publishing: true, name: '', error: false, errorMessage: null }`. -/
def webStartBroadcast (bridge : Option Bridge) (o : BroadcastOpts) : BroadcastJS :=
  match bridge with
  | some b => b.start o
  | none => { publishing := true, name := "", error := false, errorMessage := none }

/-- `mDNSWeb.stopBroadcast`: bridge when present, else the stub. -/
def webStopBroadcast (bridge : Option Bridge) : StopJS :=
  match bridge with
  | some b => b.stop ()
  | none => { publishing := false, error := false, errorMessage := none }

/-- `mDNSWeb.discover`: bridge when present, else the empty stub. -/
def webDiscover (bridge : Option Bridge) (o : DiscoverOpts) : WebDiscoverRes :=
  match bridge with
  | some b => b.disc o
  | none => { services := [], error := false, errorMessage := none, servicesFound := 0 }

/-! ## Discovery session lemmas -/

lemma finishD_finished (st : DiscState) : (finishD st).finished = true := by
  unfold finishD
  by_cases h : st.finished = true <;> simp [h]

lemma finishD_services (st : DiscState) : (finishD st).services = st.services := by
  unfold finishD
  by_cases h : st.finished = true <;> simp [h]

/-- A finished session processes no further events: the browser was stopped and
the timer cleared inside `finish`, and `finish` itself is guarded. -/
lemma stepD_fixed (cfg : DiscCfg) (st : DiscState) (e : DEvent)
    (h : st.finished = true) : stepD cfg st e = st := by
  cases e with
  | found c => simp [stepD, onFound, h]
  | browseError m => rfl
  | timeout => simp [stepD, finishD, h]

lemma foldl_fixed (cfg : DiscCfg) (st : DiscState) (evs : List DEvent)
    (h : st.finished = true) : List.foldl (stepD cfg) st evs = st := by
  induction evs with
  | nil => rfl
  | cons e rest ih => rw [List.foldl_cons, stepD_fixed cfg st e h, ih]

/-- The find callback only grows `services` and otherwise either leaves the
state alone or routes through `finish`. -/
lemma onFound_shape (cfg : DiscCfg) (st : DiscState) (c : Candidate) :
    ∃ svcs, (∀ r ∈ st.services, r ∈ svcs) ∧
      (onFound cfg st c = { st with services := svcs } ∨
       onFound cfg st c = finishD { st with services := svcs }) := by
  obtain ⟨svcs0, fin0, del0⟩ := st
  unfold onFound
  cases fin0 with
  | true => exact ⟨svcs0, fun r hr => hr, Or.inl (by simp)⟩
  | false =>
    by_cases h2 : matchesTarget c.name cfg.targetId = true
    · simp only [h2, Bool.not_true, if_false, Bool.false_eq_true, if_true]
      by_cases h3 : svcs0.any
          (fun x => svcKey x.name x.port ==
            svcKey (toItem cfg.fullType c).name (toItem cfg.fullType c).port) = true
      · by_cases h4 : (targetTruthy cfg.targetId &&
            matchesTarget (toItem cfg.fullType c).name cfg.targetId) = true
        · exact ⟨svcs0, fun r hr => hr, Or.inr (by simp [h3, h4])⟩
        · exact ⟨svcs0, fun r hr => hr, Or.inl (by simp [h3, h4])⟩
      · by_cases h4 : (targetTruthy cfg.targetId &&
            matchesTarget (toItem cfg.fullType c).name cfg.targetId) = true
        · exact ⟨svcs0 ++ [toItem cfg.fullType c],
            fun r hr => List.mem_append_left _ hr, Or.inr (by simp [h3, h4])⟩
        · exact ⟨svcs0 ++ [toItem cfg.fullType c],
            fun r hr => List.mem_append_left _ hr, Or.inl (by simp [h3, h4])⟩
    · exact ⟨svcs0, fun r hr => hr, Or.inl (by simp [h2])⟩

/-- The promise-resolution count follows `finished`: zero before, one after. -/
lemma stepD_deliv (cfg : DiscCfg) (st : DiscState) (e : DEvent)
    (h : st.delivered = if st.finished then 1 else 0) :
    (stepD cfg st e).delivered = if (stepD cfg st e).finished then 1 else 0 := by
  have hfin : ∀ s : DiscState, s.delivered = (if s.finished then 1 else 0) →
      (finishD s).delivered = if (finishD s).finished then 1 else 0 := by
    intro s hs
    unfold finishD
    by_cases hf : s.finished = true <;> simp [hf] at hs ⊢ <;> simp [hs]
  cases e with
  | found c =>
    obtain ⟨svcs, _, hc | hc⟩ := onFound_shape cfg st c
    · simpa [stepD, hc] using h
    · rw [stepD]
      rw [hc]
      exact hfin _ (by simpa using h)
  | browseError m => exact h
  | timeout => exact hfin st h

lemma runD_deliv (cfg : DiscCfg) (evs : List DEvent) :
    (runD cfg evs).delivered = if (runD cfg evs).finished then 1 else 0 := by
  suffices h : ∀ st : DiscState, st.delivered = (if st.finished then 1 else 0) →
      (List.foldl (stepD cfg) st evs).delivered =
        if (List.foldl (stepD cfg) st evs).finished then 1 else 0 by
    exact h initDisc rfl
  induction evs with
  | nil => exact fun st hst => hst
  | cons e rest ih =>
    intro st hst
    exact ih _ (stepD_deliv cfg st e hst)

/-! ## NameMatcher lemmas -/

lemma mem_takeWhile_digit {c : Char} {l : List Char} (p : Char → Bool)
    (h : c ∈ l.takeWhile p) : p c = true := by
  induction l with
  | nil => simp [List.takeWhile] at h
  | cons a rest ih =>
    rw [List.takeWhile_cons] at h
    by_cases ha : p a = true
    · simp [ha] at h
      rcases h with h | h
      · subst h; exact ha
      · exact ih h
    · simp [ha] at h

lemma takeWhile_digits_append (l t : List Char) (hl : ∀ c ∈ l, Char.isDigit c = true) :
    (l ++ '(' :: t).takeWhile Char.isDigit = l ∧
    (l ++ '(' :: t).dropWhile Char.isDigit = '(' :: t := by
  induction l with
  | nil => constructor <;> simp [List.takeWhile_cons, List.dropWhile_cons]
  | cons a rest ih =>
    have ha : Char.isDigit a = true := hl a (List.mem_cons_self a rest)
    have hrest := ih (fun c hc => hl c (List.mem_cons_of_mem a hc))
    constructor
    · simp [List.takeWhile_cons, ha, hrest.1]
    · simp [List.dropWhile_cons, ha, hrest.2]

/-- Applying the regex replace to a string that does end in a " (digits)"
suffix removes exactly that suffix. -/
lemma normalizeL_strip (X N : List Char) (hne : N ≠ [])
    (hdig : ∀ c ∈ N, Char.isDigit c = true) :
    normalizeL (X ++ ' ' :: '(' :: (N ++ [')'])) = X := by
  have hrev : (X ++ ' ' :: '(' :: (N ++ [')'])).reverse =
      ')' :: (N.reverse ++ '(' :: ' ' :: X.reverse) := by
    simp
  have hdig' : ∀ c ∈ N.reverse, Char.isDigit c = true := by
    intro c hc; exact hdig c (List.mem_reverse.mp hc)
  obtain ⟨htake, hdrop⟩ := takeWhile_digits_append N.reverse (' ' :: X.reverse) hdig'
  have hne' : N.reverse ≠ [] := by simpa using hne
  unfold normalizeL
  rw [hrev]
  unfold stripParenSuffixRev
  simp only [if_pos rfl]
  rw [htake, hdrop]
  simp [hne']

/-- When the matcher fires, the input really had the suffix shape. -/
lemma strip_sound (rl r : List Char) (h : stripParenSuffixRev rl = some r) :
    ∃ N, N ≠ [] ∧ (∀ c ∈ N, Char.isDigit c = true) ∧
      rl.reverse = r.reverse ++ ' ' :: '(' :: (N ++ [')']) := by
  cases rl with
  | nil => simp [stripParenSuffixRev] at h
  | cons c rest =>
    simp only [stripParenSuffixRev] at h
    by_cases hc : c = ')'
    · rw [if_pos hc] at h
      rcases hd : rest.dropWhile Char.isDigit with _ | ⟨c1, _ | ⟨c2, r'⟩⟩
      · rw [hd] at h; simp at h
      · rw [hd] at h; simp at h
      · rw [hd] at h
        simp only at h
        by_cases hcond : c1 = '(' ∧ c2 = ' ' ∧ rest.takeWhile Char.isDigit ≠ []
        · rw [if_pos hcond] at h
          obtain ⟨hc1, hc2, hne⟩ := hcond
          have hr : r' = r := by simpa using h
          rw [hr] at hd
          subst hc1 hc2 hc
          refine ⟨(rest.takeWhile Char.isDigit).reverse, by simpa using hne, ?_, ?_⟩
          · intro ch hch
            exact mem_takeWhile_digit Char.isDigit (List.mem_reverse.mp hch)
          · have hsplit : rest = rest.takeWhile Char.isDigit ++ '(' :: ' ' :: r := by
              conv_lhs => rw [← List.takeWhile_append_dropWhile Char.isDigit rest]
              rw [hd]
            calc (')' :: rest).reverse = rest.reverse ++ [')'] := by simp
              _ = (rest.takeWhile Char.isDigit ++ '(' :: ' ' :: r).reverse ++ [')'] := by
                    rw [← hsplit]
              _ = r.reverse ++ ' ' :: '(' ::
                    ((rest.takeWhile Char.isDigit).reverse ++ [')']) := by simp
        · rw [if_neg hcond] at h; exact absurd h (by simp)
    · rw [if_neg hc] at h; exact absurd h (by simp)

/-- The shape the regex matches: some trailing " (digits)" suffix. -/
def HasParenSuffix (s : String) : Prop :=
  ∃ (X N : List Char), N ≠ [] ∧ (∀ ch ∈ N, Char.isDigit ch = true) ∧
    s.data = X ++ ' ' :: '(' :: (N ++ [')'])

lemma normalize_eq_of_no_suffix (s : String) (h : ¬ HasParenSuffix s) :
    normalize s = s := by
  unfold normalize normalizeL
  rcases hcase : stripParenSuffixRev s.data.reverse with _ | r
  · rfl
  · exfalso
    obtain ⟨N, hne, hdig, heq⟩ := strip_sound s.data.reverse r hcase
    rw [List.reverse_reverse] at heq
    exact h ⟨r.reverse, N, hne, hdig, heq⟩

/-! ## iOS dedup lemmas -/

lemma entryKey_mkEntry (b : Box) : entryKey (mkEntry b) = boxKey b := by
  unfold entryKey mkEntry boxKey
  by_cases h : b.hosts.isEmpty = true
  · simp [h, List.isEmpty_iff.mp h]
  · simp [h]

/-- The keys of the dedup loop output are distinct and disjoint from `seen`. -/
lemma finishLoop_keys (bs : List Box) (seen : List String) :
    ((finishLoop bs seen).map entryKey).Nodup ∧
    ∀ k ∈ (finishLoop bs seen).map entryKey, k ∉ seen := by
  induction bs generalizing seen with
  | nil => simp [finishLoop]
  | cons b rest ih =>
    by_cases hr : b.resolved = true
    · by_cases hc : boxKey b ∈ seen
      · simpa [finishLoop, hr, hc] using ih seen
      · have hmem : boxKey b ∉ seen := hc
        obtain ⟨ihn, ihf⟩ := ih (boxKey b :: seen)
        rw [show finishLoop (b :: rest) seen =
          mkEntry b :: finishLoop rest (boxKey b :: seen) by simp [finishLoop, hr, hc]]
        rw [List.map_cons]
        constructor
        · rw [List.nodup_cons]
          refine ⟨fun hin => ?_, ihn⟩
          rw [entryKey_mkEntry] at hin
          exact ihf _ hin (List.mem_cons_self _ _)
        · intro k hk
          rcases List.mem_cons.mp hk with hk | hk
          · rw [hk, entryKey_mkEntry]; exact hmem
          · exact fun hks => ihf k hk (List.mem_cons_of_mem _ hks)
    · simpa [finishLoop, hr] using ih seen

/-- Every resolved box whose key is not yet seen is represented in the output. -/
lemma finishLoop_covers (bs : List Box) (seen : List String) (b : Box)
    (hb : b ∈ bs) (hr : b.resolved = true) (hns : boxKey b ∉ seen) :
    ∃ e ∈ finishLoop bs seen, entryKey e = boxKey b := by
  induction bs generalizing seen with
  | nil => simp at hb
  | cons x rest ih =>
    rcases List.mem_cons.mp hb with hbx | hbr
    · subst hbx
      exact ⟨mkEntry b, by simp [finishLoop, hr, hns], entryKey_mkEntry b⟩
    · by_cases hxr : x.resolved = true
      · by_cases hc : boxKey x ∈ seen
        · rw [show finishLoop (x :: rest) seen = finishLoop rest seen by
            simp [finishLoop, hxr, hc]]
          exact ih seen hbr hns
        · rw [show finishLoop (x :: rest) seen =
            mkEntry x :: finishLoop rest (boxKey x :: seen) by simp [finishLoop, hxr, hc]]
          by_cases hkx : boxKey b = boxKey x
          · exact ⟨mkEntry x, List.mem_cons_self _ _, by rw [entryKey_mkEntry, hkx]⟩
          · have hns' : boxKey b ∉ boxKey x :: seen := by
              intro hmm
              rcases List.mem_cons.mp hmm with hmm | hmm
              · exact hkx hmm
              · exact hns hmm
            obtain ⟨e, he, hek⟩ := ih (boxKey x :: seen) hbr hns'
            exact ⟨e, List.mem_cons_of_mem _ he, hek⟩
      · rw [show finishLoop (x :: rest) seen = finishLoop rest seen by
          simp [finishLoop, hxr]]
        exact ih seen hbr hns

/-- The representative for a key is the first resolved box carrying it. -/
lemma finishLoop_first (bs : List Box) (seen : List String) (b0 : Box) (k : String)
    (hfind : (bs.filter (fun x => x.resolved)).find? (fun x => boxKey x == k) = some b0)
    (hk : k ∉ seen) : mkEntry b0 ∈ finishLoop bs seen := by
  induction bs generalizing seen with
  | nil => simp at hfind
  | cons x rest ih =>
    by_cases hxr : x.resolved = true
    · rw [List.filter_cons_of_pos (by simp [hxr])] at hfind
      by_cases hx : (boxKey x == k) = true
      · rw [@List.find?_cons_of_pos _ (fun y => boxKey y == k) x
            (List.filter (fun y => y.resolved) rest) hx] at hfind
        have hb0 : x = b0 := by simpa using hfind
        have hkk : boxKey x = k := by simpa using hx
        have hc : boxKey x ∉ seen := by rw [hkk]; exact hk
        rw [show finishLoop (x :: rest) seen =
          mkEntry x :: finishLoop rest (boxKey x :: seen) by simp [finishLoop, hxr, hc]]
        rw [hb0]
        exact List.mem_cons_self _ _
      · rw [@List.find?_cons_of_neg _ (fun y => boxKey y == k) x
            (List.filter (fun y => y.resolved) rest) hx] at hfind
        by_cases hc : boxKey x ∈ seen
        · rw [show finishLoop (x :: rest) seen = finishLoop rest seen by
            simp [finishLoop, hxr, hc]]
          exact ih seen hfind hk
        · rw [show finishLoop (x :: rest) seen =
            mkEntry x :: finishLoop rest (boxKey x :: seen) by simp [finishLoop, hxr, hc]]
          have hk' : k ∉ boxKey x :: seen := by
            intro hmm
            rcases List.mem_cons.mp hmm with hmm | hmm
            · exact hx (by rw [hmm]; exact beq_self_eq_true _)
            · exact hk hmm
          exact List.mem_cons_of_mem _ (ih (boxKey x :: seen) hfind hk')
    · rw [List.filter_cons_of_neg (by simp [hxr])] at hfind
      rw [show finishLoop (x :: rest) seen = finishLoop rest seen by
        simp [finishLoop, hxr]]
      exact ih seen hfind hk

/-! ## Claim theorems -/

/-- Claim C1: whenever the hard-timeout callback is among the events the
session processes — which the scheduler guarantees at time T plus its bounded
slack, since the timer is armed unconditionally and never reset by found
events — the discovery promise is resolved exactly once, no matter how many
found or browse-error events surround it (a transport that never stops
emitting found events, or whose resolves never produce events, included). -/
theorem c1_discovery_delivers_once (cfg : DiscCfg) (evs : List DEvent)
    (h : DEvent.timeout ∈ evs) :
    (runD cfg evs).finished = true ∧ (runD cfg evs).delivered = 1 := by
  obtain ⟨l1, l2, rfl⟩ := List.append_of_mem h
  have h1 : runD cfg (l1 ++ [DEvent.timeout]) =
      finishD (List.foldl (stepD cfg) initDisc l1) := by
    simp [runD, List.foldl_append, stepD]
  have hf : (runD cfg (l1 ++ [DEvent.timeout])).finished = true := by
    rw [h1]; exact finishD_finished _
  have key : runD cfg (l1 ++ DEvent.timeout :: l2) = runD cfg (l1 ++ [DEvent.timeout]) := by
    calc runD cfg (l1 ++ DEvent.timeout :: l2)
        = List.foldl (stepD cfg) (runD cfg (l1 ++ [DEvent.timeout])) l2 := by
          simp [runD, List.foldl_append]
      _ = runD cfg (l1 ++ [DEvent.timeout]) := foldl_fixed _ _ _ hf
  rw [key]
  have hd := runD_deliv cfg (l1 ++ [DEvent.timeout])
  rw [hf] at hd
  simp at hd
  exact ⟨hf, hd⟩

/-- Witness for C1 at a concrete one-event queue. -/
theorem c1_witness :
    DEvent.timeout ∈ [DEvent.timeout] ∧
    ((runD ⟨"_http._tcp.", none⟩ [DEvent.timeout]).finished = true ∧
     (runD ⟨"_http._tcp.", none⟩ [DEvent.timeout]).delivered = 1) :=
  ⟨List.mem_singleton.mpr rfl,
    c1_discovery_delivers_once ⟨"_http._tcp.", none⟩ [DEvent.timeout]
      (List.mem_singleton.mpr rfl)⟩

/-- Claim C2 counterexample: the only-if half fails on the cited iOS binding.
With NO target filter, `matchesTarget` accepts every candidate, so
`netServiceDidResolveAddress` finishes the session — delivering the
completion — on the very first successful resolve by itself. -/
theorem c2_counterexample :
    matchesTarget "Printer" none = true ∧
    (iosDidResolve none
      { active := true, delivered := 0, resolveRemaining := 1 } "Printer").active = false ∧
    (iosDidResolve none
      { active := true, delivered := 0, resolveRemaining := 1 } "Printer").delivered = 1 := by
  exact ⟨rfl, rfl, rfl⟩

/-- Claim C2 amended: the if half holds — with a (non-empty) target filter
set, a resolved candidate whose name satisfies the matcher finishes the
electron session at that very event, the final services containing a record
with the candidate's dedup key and every record accumulated so far. The
only-if half is binding-specific: in the electron session a resolved candidate
never finishes the session without a truthy target, but in the iOS session a
successful resolve finishes the session whenever the nil-tolerant matcher
accepts the sender — hence always when no target filter is set. -/
theorem c2_early_exit_per_binding (cfg : DiscCfg) (st : DiscState) (c : Candidate)
    (target : Option String) (ist : IosState) (nm : String) :
    (∀ t, cfg.targetId = some t → t ≠ "" →
      matchesTarget c.name cfg.targetId = true → st.finished = false →
        (onFound cfg st c).finished = true ∧
        (∃ r ∈ (onFound cfg st c).services,
            svcKey r.name r.port = svcKey c.name (c.port.getD 0)) ∧
        (∀ r ∈ st.services, r ∈ (onFound cfg st c).services))
    ∧ (targetTruthy cfg.targetId = false →
        (onFound cfg st c).finished = st.finished ∧
        (onFound cfg st c).delivered = st.delivered)
    ∧ (matchesTarget nm target = true → ist.active = true →
        (iosDidResolve target ist nm).active = false ∧
        (iosDidResolve target ist nm).delivered = ist.delivered + 1) := by
  refine ⟨?_, ?_, ?_⟩
  · intro t ht hne hmatch hnotfin
    have htruthy : targetTruthy cfg.targetId = true := by
      simp [targetTruthy, ht, hne]
    have hmatch' : matchesTarget (toItem cfg.fullType c).name cfg.targetId = true := hmatch
    unfold onFound
    rw [hnotfin, hmatch]
    simp only [Bool.not_true, if_false, Bool.false_eq_true, if_true]
    by_cases h3 : st.services.any
        (fun x => svcKey x.name x.port ==
          svcKey (toItem cfg.fullType c).name (toItem cfg.fullType c).port) = true
    · obtain ⟨x, hx, hbeq⟩ := List.any_eq_true.mp h3
      simp only [h3, if_true, htruthy, hmatch', Bool.and_self]
      refine ⟨finishD_finished _, ⟨x, ?_, ?_⟩, ?_⟩
      · rw [finishD_services]; exact hx
      · exact beq_iff_eq.mp hbeq
      · intro r hr; rw [finishD_services]; exact hr
    · simp only [h3, if_false, htruthy, hmatch', Bool.and_self, Bool.false_eq_true, if_true]
      refine ⟨finishD_finished _, ⟨toItem cfg.fullType c, ?_, rfl⟩, ?_⟩
      · rw [finishD_services]
        exact List.mem_append_right _ (List.mem_singleton.mpr rfl)
      · intro r hr
        rw [finishD_services]
        exact List.mem_append_left _ hr
  · intro htf
    obtain ⟨svcs0, fin0, del0⟩ := st
    unfold onFound
    cases fin0 with
    | true => simp
    | false =>
      by_cases h2 : matchesTarget c.name cfg.targetId = true
      · simp only [h2, htf, Bool.false_and, Bool.not_true, if_false, Bool.false_eq_true, if_true]
        by_cases h3 : svcs0.any
            (fun x => svcKey x.name x.port ==
              svcKey (toItem cfg.fullType c).name (toItem cfg.fullType c).port) = true
        · simp [h3]
        · simp [h3]
      · simp [h2]
  · intro hm ha
    unfold iosDidResolve iosFinish
    simp [hm, ha]

/-- Witness for the amended C2: a matching resolve with target "Printer"
finishes the electron session at once, and an untargeted successful resolve
finishes the iOS session by itself. -/
theorem c2_witness :
    ((⟨"_http._tcp.", some "Printer"⟩ : DiscCfg).targetId = some "Printer" ∧
     "Printer" ≠ "" ∧
     matchesTarget "Printer" (some "Printer") = true ∧
     initDisc.finished = false ∧
     matchesTarget "Printer" none = true ∧
     ({ active := true, delivered := 0, resolveRemaining := 1 } : IosState).active = true) ∧
    (onFound ⟨"_http._tcp.", some "Printer"⟩ initDisc
        ⟨"Printer", some 9100, some ["10.0.0.5"], []⟩).finished = true ∧
    (iosDidResolve none
      { active := true, delivered := 0, resolveRemaining := 1 } "Printer").active = false := by
  refine ⟨⟨rfl, by decide, by decide, rfl, rfl, rfl⟩, ?_, ?_⟩
  · exact ((c2_early_exit_per_binding ⟨"_http._tcp.", some "Printer"⟩ initDisc
      ⟨"Printer", some 9100, some ["10.0.0.5"], []⟩ none
      { active := true, delivered := 0, resolveRemaining := 1 } "Printer").1
      "Printer" rfl (by decide) (by decide) rfl).1
  · exact ((c2_early_exit_per_binding ⟨"_http._tcp.", some "Printer"⟩ initDisc
      ⟨"Printer", some 9100, some ["10.0.0.5"], []⟩ none
      { active := true, delivered := 0, resolveRemaining := 1 } "Printer").2.2
      rfl rfl).1

/-- Claim C3 counterexample: two resolved boxes that agree on the claimed
identity triple (normalized name, port, first host) — differing only in an
OS-appended " (2)" suffix — yield TWO entries, because the code keys dedup on
the raw, un-normalized name. -/
theorem c3_counterexample :
    (normalize "Printer" = normalize "Printer (2)" ∧ (80 : Int) = 80 ∧
      (["10.0.0.5"] : List String).head? = (["10.0.0.5"] : List String).head?) ∧
    (finishOut
      [{ name := "Printer", type := "_http._tcp.", domain := "local.", port := 80,
         hosts := ["10.0.0.5"], txt := [], resolved := true },
       { name := "Printer (2)", type := "_http._tcp.", domain := "local.", port := 80,
         hosts := ["10.0.0.5"], txt := [], resolved := true }]).length = 2 := by
  exact ⟨⟨by decide, rfl, rfl⟩, by decide⟩

/-- Claim C3 amended: dedup is by the RAW triple (name, port, first host):
any two resolve successes agreeing on that raw key produce exactly one output
entry carrying it, and the entry kept is built from the first resolved box
with that key. -/
theorem c3_dedup_by_raw_key (boxes : List Box) (b1 b2 : Box)
    (h1 : b1 ∈ boxes) (_h2 : b2 ∈ boxes)
    (hr1 : b1.resolved = true) (_hr2 : b2.resolved = true)
    (_hkey : boxKey b1 = boxKey b2) :
    ((finishOut boxes).map entryKey).count (boxKey b1) = 1 ∧
    (∀ b0, (boxes.filter (fun x => x.resolved)).find? (fun x => boxKey x == boxKey b1) = some b0 →
      mkEntry b0 ∈ finishOut boxes ∧ entryKey (mkEntry b0) = boxKey b0) := by
  obtain ⟨hnodup, _⟩ := finishLoop_keys boxes []
  obtain ⟨e, he, hek⟩ := finishLoop_covers boxes [] b1 h1 hr1 (List.not_mem_nil _)
  constructor
  · have hle : ((finishOut boxes).map entryKey).count (boxKey b1) ≤ 1 :=
      List.nodup_iff_count_le_one.mp hnodup _
    have hmem : boxKey b1 ∈ (finishOut boxes).map entryKey := by
      rw [← hek]
      exact List.mem_map_of_mem entryKey he
    have hge : 0 < ((finishOut boxes).map entryKey).count (boxKey b1) :=
      List.count_pos_iff.mpr hmem
    omega
  · intro b0 hfind
    exact ⟨finishLoop_first boxes [] b0 (boxKey b1) hfind (List.not_mem_nil _),
      entryKey_mkEntry b0⟩

/-- Witness for the amended C3 at a concrete pair of identical boxes. -/
theorem c3_witness :
    (({ name := "Printer", type := "_http._tcp.", domain := "local.", port := 80,
        hosts := ["10.0.0.5"], txt := [], resolved := true } : Box) ∈
        [({ name := "Printer", type := "_http._tcp.", domain := "local.", port := 80,
            hosts := ["10.0.0.5"], txt := [], resolved := true } : Box)]) ∧
    ((finishOut
      [({ name := "Printer", type := "_http._tcp.", domain := "local.", port := 80,
          hosts := ["10.0.0.5"], txt := [], resolved := true } : Box)]).map entryKey).count
      (boxKey { name := "Printer", type := "_http._tcp.", domain := "local.", port := 80,
                hosts := ["10.0.0.5"], txt := [], resolved := true }) = 1 := by
  refine ⟨List.mem_singleton.mpr rfl, ?_⟩
  exact (c3_dedup_by_raw_key _ _ _ (List.mem_singleton.mpr rfl) (List.mem_singleton.mpr rfl)
    rfl rfl rfl).1

/-- Claim C4 counterexample: port 70000 lies outside [1, 65535], yet
`startBroadcast` passes validation, contacts the transport with a publish, and
resolves successfully — only the lower bound is checked. -/
theorem c4_counterexample :
    ((70000 : Int) > 65535) ∧
    (startBroadcastE none none none (some 70000) (PublishBehavior.up "X")).1 =
      [Action.publish "CapacitorMDNS" "http" Proto.tcp 70000] ∧
    (startBroadcastE none none none (some 70000) (PublishBehavior.up "X")).2.2 =
      Except.ok { publishing := true, name := "X" } := by
  exact ⟨by decide, by decide, rfl⟩

/-- Claim C4 amended: only the lower bound is validated. A missing,
zero or negative port makes electron `startBroadcast` fail with the
validation error before any transport action (no unpublish, no publish), and
makes the Android bridge resolve the validation-error payload; ports above
65535 pass validation (see the counterexample). -/
theorem c4_lower_bound_only (adv : Option String) (optType optId : Option String)
    (optPort : Option Int) (tb : PublishBehavior) (ro : RegOutcome) (lp : String × Proto)
    (hty : parseType optType = Except.ok lp) (hport : optPort.getD 0 ≤ 0) :
    startBroadcastE adv optType optId optPort tb =
      ([], adv, Except.error "Missing/invalid port") ∧
    androidStartBroadcastJS optPort ro =
      { publishing := false, name := "", error := true,
        errorMessage := some "Missing/invalid port" } := by
  constructor
  · unfold startBroadcastE
    rw [hty]
    obtain ⟨label, proto⟩ := lp
    simp [hport]
  · unfold androidStartBroadcastJS
    simp [hport]

/-- Witness for the amended C4 at port 0 (a missing port). -/
theorem c4_witness :
    (parseType none = Except.ok ("http", Proto.tcp) ∧ ((none : Option Int).getD 0 ≤ 0)) ∧
    startBroadcastE none none none none (PublishBehavior.up "X") =
      ([], none, Except.error "Missing/invalid port") := by
  refine ⟨⟨rfl, by decide⟩, ?_⟩
  exact (c4_lower_bound_only none none none none (PublishBehavior.up "X")
    (RegOutcome.registered "X") ("http", Proto.tcp) rfl (by decide)).1

/-- Claim C5 counterexample: after a transport-level browse-start failure the
Android bridge resolves with error = false and errorMessage = null — the
browse error is NOT recorded in the final result's error fields (it is only
logged), contradicting the claim's recording conjunct. -/
theorem c5_counterexample :
    (androidDiscoverJS none [AEvent.startFailed]).error = false ∧
    (androidDiscoverJS none [AEvent.startFailed]).errorMessage = none := by
  exact ⟨rfl, rfl⟩

/-- Claim C5 amended: a browse error never aborts discovery. In the electron
session it is a no-op — any run with the browse-error event equals the run
without it, so the timers still finish the session with the accumulated
results; on Android a browse-start failure completes the session normally with
whatever was found. But the error is only logged: the resolved result always
carries error = false and errorMessage = null, rather than recording it. -/
theorem c5_browse_error_never_aborts :
    (∀ (cfg : DiscCfg) (pre post : List DEvent) (m : String),
      runD cfg (pre ++ DEvent.browseError m :: post) = runD cfg (pre ++ post)) ∧
    (∀ (target : Option String) (st : AState),
      stepA target st AEvent.startFailed = completeA st) ∧
    (∀ (target : Option String) (evs : List AEvent),
      (androidDiscoverJS target evs).error = false ∧
      (androidDiscoverJS target evs).errorMessage = none) := by
  refine ⟨?_, fun target st => rfl, fun target evs => ⟨rfl, rfl⟩⟩
  intro cfg pre post m
  simp [runD, List.foldl_append]
  rfl

/-- Claim C6: when an advertiser is active, `startBroadcast` with valid
arguments performs exactly an unpublish followed by the new publish — the
transport receives unpublish before the next publish — and with no active
advertiser it performs the publish alone; the advertiser state is a single
optional slot, so at most one advertisement is active. -/
theorem c6_unpublish_before_publish (a : String) (optType optId : Option String)
    (optPort : Option Int) (tb : PublishBehavior) (lp : String × Proto)
    (hty : parseType optType = Except.ok lp) (hport : 0 < optPort.getD 0) :
    (startBroadcastE (some a) optType optId optPort tb).1 =
      [Action.unpublish, Action.publish (requestedName optId) lp.1 lp.2 (optPort.getD 0)] ∧
    (startBroadcastE none optType optId optPort tb).1 =
      [Action.publish (requestedName optId) lp.1 lp.2 (optPort.getD 0)] := by
  obtain ⟨label, proto⟩ := lp
  have hp : ¬ (optPort.getD 0 ≤ 0) := not_le.mpr hport
  cases tb with
  | up fin =>
    constructor
    · unfold startBroadcastE; rw [hty]; simp [hp]
    · unfold startBroadcastE; rw [hty]; simp [hp]
  | err m =>
    constructor
    · unfold startBroadcastE; rw [hty]; simp [hp]
    · unfold startBroadcastE; rw [hty]; simp [hp]

/-- Witness for C6: starting over an active advertiser "Old". -/
theorem c6_witness :
    (parseType none = Except.ok ("http", Proto.tcp) ∧ (0 : Int) < (some (8080 : Int)).getD 0) ∧
    (startBroadcastE (some "Old") none none (some 8080) (PublishBehavior.up "New")).1 =
      [Action.unpublish, Action.publish (requestedName none) "http" Proto.tcp 8080] := by
  refine ⟨⟨rfl, by decide⟩, ?_⟩
  exact (c6_unpublish_before_publish "Old" none none (some 8080) (PublishBehavior.up "New")
    ("http", Proto.tcp) rfl (by decide)).1

/-- Claim C7 counterexample: the regex strips only the LAST " (n)" group, so
normalize is not idempotent — applying it twice to "A (2) (3)" strips further
than applying it once. -/
theorem c7_counterexample :
    normalize (normalize "A (2) (3)") ≠ normalize "A (2) (3)" := by decide

/-- Claim C7 amended: normalize strips exactly one trailing " (digits)"
suffix — `normalize (X ++ " (" ++ N ++ ")") = X` for every string X and
non-empty digit sequence N — and is the identity on strings without such a
suffix; it is idempotent only on inputs whose normalized form has no remaining
suffix (not in general, see the counterexample). -/
theorem c7_normalize_strips_one_suffix :
    (∀ (X : String) (N : List Char), N ≠ [] → (∀ ch ∈ N, Char.isDigit ch = true) →
      normalize ⟨X.data ++ ' ' :: '(' :: (N ++ [')'])⟩ = X) ∧
    (∀ s : String, ¬ HasParenSuffix s → normalize s = s) ∧
    (∀ s : String, ¬ HasParenSuffix (normalize s) →
      normalize (normalize s) = normalize s) := by
  refine ⟨?_, normalize_eq_of_no_suffix, fun s h => normalize_eq_of_no_suffix _ h⟩
  intro X N hne hdig
  show (⟨normalizeL (X.data ++ ' ' :: '(' :: (N ++ [')']))⟩ : String) = X
  rw [normalizeL_strip X.data N hne hdig]

/-- Witness for the amended C7 at "My App (2)" and at the suffix-free
"Printer". -/
theorem c7_witness :
    ((['2'] : List Char) ≠ [] ∧ (∀ ch ∈ (['2'] : List Char), Char.isDigit ch = true) ∧
      ¬ HasParenSuffix "Printer") ∧
    normalize ⟨"My App".data ++ ' ' :: '(' :: ((['2'] : List Char) ++ [')'])⟩ = "My App" ∧
    normalize "Printer" = "Printer" := by
  have hnp : ¬ HasParenSuffix "Printer" := by
    intro h
    obtain ⟨X, N, hne, hdig, heq⟩ := h
    have hmem : '(' ∈ "Printer".data := by
      rw [heq]
      exact List.mem_append_right _ (List.mem_cons_of_mem _ (List.mem_cons_self _ _))
    revert hmem
    decide
  exact ⟨⟨by decide, by decide, hnp⟩,
    c7_normalize_strips_one_suffix.1 "My App" ['2'] (by decide) (by decide),
    c7_normalize_strips_one_suffix.2.1 "Printer" hnp⟩

/-- Claim C8: stopBroadcast is an idempotent no-op when nothing is active.
Two consecutive calls both resolve with publishing = false (and, at the
Android bridge, error = false and errorMessage = null); the second call finds
no advertiser and performs no transport action. -/
theorem c8_stop_idempotent :
    (∀ adv : Option String,
      (stopBroadcastE adv).2.2 = { publishing := false } ∧
      (stopBroadcastE adv).2.1 = none ∧
      (stopBroadcastE (stopBroadcastE adv).2.1).2.2 = { publishing := false } ∧
      (stopBroadcastE (stopBroadcastE adv).2.1).1 = []) ∧
    (∀ regActive : Bool,
      (androidStopJS regActive).2.2 =
        { publishing := false, error := false, errorMessage := none } ∧
      (androidStopJS (androidStopJS regActive).2.1).2.2 =
        { publishing := false, error := false, errorMessage := none } ∧
      (androidStopJS (androidStopJS regActive).2.1).1 = []) := by
  constructor
  · intro adv
    exact ⟨rfl, rfl, rfl, rfl⟩
  · intro regActive
    exact ⟨rfl, rfl, rfl⟩

/-- Claim C9 counterexample: on electron, a transport publish refusal — an
expected runtime condition — surfaces as a REJECTED promise, not as a resolved
payload with error fields. -/
theorem c9_counterexample :
    (startBroadcastE none none none (some 8080) (PublishBehavior.err "publish failed")).2.2 =
      Except.error "publish failed" := rfl

/-- Claim C9 amended: the Android/iOS bridge layer resolves every expected
runtime condition into the payload — a refused registration resolves with
error = true and the cause in errorMessage, discovery and stop always resolve
with error = false — but the electron implementation rejects its promise on a
publish failure, so the resolve-not-reject guarantee holds at the bridge
layers only. -/
theorem c9_bridges_resolve_electron_rejects (optPort : Option Int) (code : Int)
    (m : String) (hport : 0 < optPort.getD 0) :
    androidStartBroadcastJS optPort (RegOutcome.failed code) =
      { publishing := false, name := "", error := true,
        errorMessage := some ("Registration failed: " ++ toString code) } ∧
    (∀ (target : Option String) (evs : List AEvent),
      (androidDiscoverJS target evs).error = false) ∧
    (∀ regActive : Bool, (androidStopJS regActive).2.2.error = false) ∧
    (startBroadcastE none none none (some 8080) (PublishBehavior.err m)).2.2 =
      Except.error m := by
  refine ⟨?_, fun target evs => rfl, fun regActive => rfl, rfl⟩
  unfold androidStartBroadcastJS
  simp [not_le.mpr hport]

/-- Witness for the amended C9 at a concrete failed registration. -/
theorem c9_witness :
    ((0 : Int) < (some (8080 : Int)).getD 0) ∧
    androidStartBroadcastJS (some 8080) (RegOutcome.failed 3) =
      { publishing := false, name := "", error := true,
        errorMessage := some ("Registration failed: " ++ toString (3 : Int)) } := by
  refine ⟨by decide, ?_⟩
  exact (c9_bridges_resolve_electron_rejects (some 8080) 3 "x" (by decide)).1

/-- Claim C10: with no Electron bridge on the window, every web-fallback
method resolves its well-shaped stub for every input — startBroadcast with
publishing = true and an empty placeholder name and no error, stopBroadcast
with publishing = false, discover with an empty services list — and, being
total functions that consult no transport, they never reject and never contact
a transport. -/
theorem c10_web_stub :
    (∀ o : BroadcastOpts, webStartBroadcast none o =
      { publishing := true, name := "", error := false, errorMessage := none }) ∧
    webStopBroadcast none = { publishing := false, error := false, errorMessage := none } ∧
    (∀ o : DiscoverOpts, webDiscover none o =
      { services := [], error := false, errorMessage := none, servicesFound := 0 }) := by
  exact ⟨fun o => rfl, rfl, fun o => rfl⟩

end CapMdns
